import Mathlib

/-!
# Verification of the cicadabot leaderboard core (`app.py`)

Shallow embedding of the core logic of `app.py`:

* `parse_float` — the tolerant numeric parser (ValueParser);
* `read_balances_from_csv` — the snapshot reader (SnapshotReader);
* `get_gala_usd_price` — the TTL price cache (PriceCache);
* `compute_totals` — the leaderboard builder (LeaderboardBuilder).

Modelling conventions:

* Python `float` values are modelled by `ℚ` (exact arithmetic; the program
  only performs `+`, `-`, `*`, `/` and comparisons on finite values).
* A Python `dict` is modelled by an insertion-ordered association list with
  unique keys (`dinsert` overwrites in place, otherwise appends — exactly the
  semantics of `d[k] = v`).
* The file system is modelled by `Option (List CsvRow)`: `none` is a missing
  file, `some rows` the parsed records of `csv.DictReader` (each field is
  `Option String`, `none` when the column is absent).
* The external price fetch is modelled by a `FetchOutcome` argument: either
  `failure` (any exception: network error, timeout, non-2xx, malformed JSON)
  or `success usd` carrying the textual value reaching `parse_float`; the
  wall clock `time.time()` is an explicit `now` argument and the module-level
  cache `_price_cache["gala_usd"]` an explicit `Option (ℚ × ℚ)` argument.
* `compute_totals` iterates over `set(current) | set(starting)`; CPython's
  `set` iteration order is not determined by the inputs, so the embedding
  takes the iteration order as an explicit `owners : List String` argument.
  Theorems quantify over every order (constrained, where needed, to be a
  duplicate-free enumeration of the key union).
-/

namespace Cicadabot

/-- One account's balances, the value of the per-owner dict built by
`read_balances_from_csv` with keys `"GALA"`, `"GUSDC"`, `"GUSDT"`. -/
structure Balances where
  gala : ℚ
  gusdc : ℚ
  gusdt : ℚ
deriving DecidableEq, Repr

/-- A Python `dict` from owner to balances, as an insertion-ordered
association list with unique keys. -/
abbrev Snapshot := List (String × Balances)

/-- `d.get(k)` on the modelled dict: value at the first (unique) match. -/
def lookup : Snapshot → String → Option Balances
  | [], _ => none
  | (k, v) :: d, o => if o = k then some v else lookup d o

/-- `d[k] = v` on the modelled dict: overwrite in place, else append. -/
def dinsert : Snapshot → String → Balances → Snapshot
  | [], k, v => [(k, v)]
  | (k', v') :: d, k, v =>
    if k = k' then (k, v) :: d else (k', v') :: dinsert d k v

/-- `d.keys()` of the modelled dict. -/
def keys (d : Snapshot) : List String := d.map Prod.fst

/-! ## ValueParser (`parse_float`, app.py lines 26–35) -/

/-- Python `str.strip()` (ASCII/general whitespace at both ends). -/
def pyStrip (s : String) : String :=
  String.mk (((s.toList.dropWhile Char.isWhitespace).reverse.dropWhile
    Char.isWhitespace).reverse)

/-- Python `str.lower()` for the characters appearing here (ASCII). -/
def pyLower (s : String) : String :=
  String.mk (s.toList.map Char.toLower)

/-- Value of a digit string, most significant first. -/
def natOfDigits (l : List Char) : ℕ :=
  l.foldl (fun a c => a * 10 + (c.toNat - 48)) 0

/-- Split a leading sign character off a literal. -/
def parseSign : List Char → ℤ × List Char
  | '+' :: r => (1, r)
  | '-' :: r => (-1, r)
  | l => (1, l)

/-- The unsigned mantissa of a Python float literal: digits with at most one
decimal point, at least one digit overall. -/
def parseMantissa (l : List Char) : Option ℚ :=
  let ip := l.takeWhile Char.isDigit
  let rest := l.dropWhile Char.isDigit
  match rest with
  | [] => if ip.isEmpty then none else some (natOfDigits ip)
  | '.' :: fp =>
    if fp.all Char.isDigit && !(ip.isEmpty && fp.isEmpty) then
      some ((natOfDigits ip : ℚ) + (natOfDigits fp : ℚ) / (10 : ℚ) ^ fp.length)
    else none
  | _ => none

/-- Model of Python's builtin `float()` on an already-stripped string:
`none` is a raised `ValueError`. Finite decimal and scientific literals are
modelled; non-finite values (`inf`, `nan` — the latter is pre-filtered by
`parse_float` anyway) and digit-group underscores are out of scope of `ℚ`
and treated as conversion failures. -/
def pyFloat? (s : String) : Option ℚ :=
  let l := s.toList.map Char.toLower
  let sl := parseSign l
  let m := sl.2.takeWhile (fun c => c != 'e')
  let rest := sl.2.dropWhile (fun c => c != 'e')
  match parseMantissa m with
  | none => none
  | some q =>
    match rest with
    | [] => some (sl.1 * q)
    | _ :: es =>
      let se := parseSign es
      if se.2.isEmpty || !se.2.all Char.isDigit then none
      else some (sl.1 * q * (10 : ℚ) ^ (se.1 * (natOfDigits se.2 : ℤ)))

/-- The case-insensitive sentinel strings treated as `0.0`. -/
def SPECIAL_ZERO : List String := ["na", "nan", "none", "null"]

/-- `parse_float` (app.py lines 26–35). Total by construction — the Python
`try`/`except` that swallows conversion errors is the `none` branch of
`pyFloat?`. -/
def parse_float (value : Option String) : ℚ :=
  match value with
  | none => 0
  | some v =>
    let s := pyStrip v
    if s = "" ∨ pyLower s ∈ SPECIAL_ZERO then 0
    else
      match pyFloat? s with
      | some x => x
      | none => 0

/-! ## SnapshotReader (`read_balances_from_csv`, app.py lines 38–56) -/

/-- One record of `csv.DictReader`: each `row.get(col)` is `none` when the
column is missing from the file. -/
structure CsvRow where
  owner : Option String
  GALA : Option String
  GUSDC : Option String
  GUSDT : Option String
deriving DecidableEq, Repr

/-- The balances dict built for one CSV record (app.py lines 48–55). -/
def rowBalances (r : CsvRow) : Balances :=
  ⟨parse_float r.GALA, parse_float r.GUSDC, parse_float r.GUSDT⟩

/-- The loop body of `read_balances_from_csv` (app.py lines 44–55):
`(row.get("owner") or "").strip()` is `pyStrip (r.owner.getD "")`; a record
whose stripped owner is empty is skipped (`continue`), otherwise the owner's
balances entry is inserted/overwritten. -/
def csvStep (acc : Snapshot) (r : CsvRow) : Snapshot :=
  let owner := pyStrip (r.owner.getD "")
  if owner = "" then acc else dinsert acc owner (rowBalances r)

/-- `read_balances_from_csv` (app.py lines 38–56). The argument is `none`
when `os.path.exists(path)` is false (then the empty mapping is returned). -/
def read_balances_from_csv (file : Option (List CsvRow)) : Snapshot :=
  match file with
  | none => []
  | some rs => rs.foldl csvStep []

/-! ## PriceCache (`get_gala_usd_price`, app.py lines 59–76) -/

/-- Outcome of `requests.get(...)`/`raise_for_status`/`.json()`: `failure`
for any raised exception, else the value
`((data or \x7b\x7d).get("gala") or \x7b\x7d).get("usd")` as it reaches
`parse_float`. -/
inductive FetchOutcome
  | failure
  | success (usd : Option String)
deriving DecidableEq

/-- `PRICE_CACHE_TTL_SEC` (app.py line 16). -/
def PRICE_CACHE_TTL_SEC : ℚ := 60

/-- Result of one call to the price accessor: the returned price, the cache
slot `_price_cache["gala_usd"]` afterwards, and whether an external fetch
was attempted during the call. -/
structure PriceResult where
  price : ℚ
  cache : Option (ℚ × ℚ)
  fetched : Bool
deriving DecidableEq, Repr

/-- `get_gala_usd_price` (app.py lines 59–76); `cache` is the prior
`_price_cache.get("gala_usd")`, `now` is `time.time()`. A cached pair is a
non-empty tuple, hence truthy, so `if cached` is the `some` case. On fetch
success the parsed price is cached (even if zero) with timestamp `now`; on
failure the cache is left untouched and the stale price (or `0.0`) is
returned. Total by construction — the `try`/`except` is `FetchOutcome`. -/
def get_gala_usd_price (cache : Option (ℚ × ℚ)) (now : ℚ)
    (fetch : FetchOutcome) : PriceResult :=
  match cache with
  | some (p, t) =>
    if now - t < PRICE_CACHE_TTL_SEC then ⟨p, some (p, t), false⟩
    else
      match fetch with
      | .success usd => let price := parse_float usd; ⟨price, some (price, now), true⟩
      | .failure => ⟨p, some (p, t), true⟩
  | none =>
    match fetch with
    | .success usd => let price := parse_float usd; ⟨price, some (price, now), true⟩
    | .failure => ⟨0, none, true⟩

/-! ## LeaderboardBuilder (`compute_totals`, app.py lines 79–122) -/

/-- One leaderboard row (the dict built at app.py lines 106–117, plus the
`rank` key added at lines 120–121; before assignment `rank` is a `0`
placeholder, the Python dict simply lacks the key). -/
structure Row where
  owner : String
  gala : ℚ
  gusdc : ℚ
  gusdt : ℚ
  starting_total : ℚ
  current_total : ℚ
  change : ℚ
  pct_change : Option ℚ
  rank : ℕ
deriving DecidableEq, Repr

/-- The valuation formula of app.py lines 99–100:
`native * price + stableA + stableB`. -/
def total (price : ℚ) (b : Balances) : ℚ :=
  b.gala * price + b.gusdc + b.gusdt

/-- `current.get(owner, \x7b\x7d)` followed by `parse_float` on each asset
key: a present owner's stored floats round-trip through `str`/`float`
unchanged, and on the empty dict every `get` is `None`, parsed to `0.0`. -/
def bget (d : Snapshot) (o : String) : Balances :=
  (lookup d o).getD ⟨0, 0, 0⟩

/-- The row built for one owner in the loop of app.py lines 87–117. -/
def mkRow (current starting : Snapshot) (price : ℚ) (owner : String) : Row :=
  let c := bget current owner
  let s := bget starting owner
  let current_total := total price c
  let starting_total := total price s
  let change := current_total - starting_total
  { owner := owner
    gala := c.gala
    gusdc := c.gusdc
    gusdt := c.gusdt
    starting_total := starting_total
    current_total := current_total
    change := change
    pct_change :=
      if starting_total > 0 then some (change / starting_total * 100) else none
    rank := 0 }

/-- The sort order of `rows.sort(key=..., reverse=True)`: descending by
`current_total`. -/
def rowKeyLE (a b : Row) : Prop :=
  b.current_total ≤ a.current_total

instance : DecidableRel rowKeyLE :=
  fun a b => inferInstanceAs (Decidable (b.current_total ≤ a.current_total))

instance : IsTotal Row rowKeyLE :=
  ⟨fun a b => le_total b.current_total a.current_total⟩

instance : IsTrans Row rowKeyLE :=
  ⟨fun _ _ _ h₁ h₂ => le_trans h₂ h₁⟩

/-- `for idx, row in enumerate(rows, start=1): row["rank"] = idx`
(app.py lines 120–121). -/
def assignRanks : ℕ → List Row → List Row
  | _, [] => []
  | n, r :: rs => { r with rank := n } :: assignRanks (n + 1) rs

/-- `compute_totals` (app.py lines 79–122). `owners` is the iteration order
of `set(current.keys()) | set(starting.keys())`. Python's stable descending
sort (Timsort with `reverse=True` keeps equal keys in encounter order) is
realised by `List.insertionSort rowKeyLE`, which is also stable and agrees
with it on every input. -/
def compute_totals (current starting : Snapshot) (gala_price : ℚ)
    (owners : List String) : List Row :=
  assignRanks 1
    (List.insertionSort rowKeyLE (owners.map (mkRow current starting gala_price)))

/-- A canonical duplicate-free enumeration of
`set(current.keys()) | set(starting.keys())`, used to instantiate theorems
that are quantified over every enumeration. -/
def ownersOf (current starting : Snapshot) : List String :=
  (keys current ++ keys starting).dedup

/-! ## Support lemmas: the dict model -/

theorem lookup_dinsert (d : Snapshot) (k : String) (v : Balances) (o : String) :
    lookup (dinsert d k v) o = if o = k then some v else lookup d o := by
  induction d with
  | nil => simp [dinsert, lookup]
  | cons hd tl ih =>
    obtain ⟨k', v'⟩ := hd
    by_cases hk : k = k'
    · subst hk
      by_cases ho : o = k <;> simp [dinsert, lookup, ho]
    · by_cases ho : o = k'
      · subst ho
        simp [dinsert, lookup, hk, Ne.symm hk]
      · simp [dinsert, lookup, hk, ho, ih]

/-! ## Support lemmas: `Option` first-of-two (Python-dict last-wins plumbing) -/

/-- Left-biased choice on `Option`, used to state last-wins lookups. -/
def oor {α : Type _} : Option α → Option α → Option α
  | some v, _ => some v
  | none, b => b

theorem oor_none_right {α : Type _} (a : Option α) : oor a none = a := by
  cases a <;> rfl

theorem oor_oor_some {α : Type _} (x : Option α) (y : α) (z : Option α) :
    oor (oor x (some y)) z = oor x (some y) := by
  cases x <;> rfl

theorem getLast?_cons_oor {α : Type _} (a : α) (l : List α) :
    (a :: l).getLast? = oor l.getLast? (some a) := by
  induction l generalizing a with
  | nil => rfl
  | cons b bs ih =>
    have h1 : (a :: b :: bs).getLast? = (b :: bs).getLast? := rfl
    rw [h1, ih b]
    exact (oor_oor_some _ _ _).symm

/-! ## Support lemmas: rank assignment -/

theorem length_assignRanks (n : ℕ) (l : List Row) :
    (assignRanks n l).length = l.length := by
  induction l generalizing n with
  | nil => rfl
  | cons r rs ih => simp [assignRanks, ih]

theorem mem_assignRanks {r : Row} {n : ℕ} {l : List Row}
    (h : r ∈ assignRanks n l) : ∃ r₀ ∈ l, ∃ m, r = { r₀ with rank := m } := by
  induction l generalizing n with
  | nil => simp [assignRanks] at h
  | cons x xs ih =>
    simp only [assignRanks, List.mem_cons] at h
    rcases h with h | h
    · exact ⟨x, List.mem_cons_self x xs, n, h⟩
    · obtain ⟨r₀, hr₀, m, hm⟩ := ih h
      exact ⟨r₀, List.mem_cons_of_mem x hr₀, m, hm⟩

theorem map_assignRanks {α : Type _} (f : Row → α)
    (hf : ∀ (r : Row) (m : ℕ), f { r with rank := m } = f r) (n : ℕ) (l : List Row) :
    (assignRanks n l).map f = l.map f := by
  induction l generalizing n with
  | nil => rfl
  | cons r rs ih => simp [assignRanks, hf, ih]

theorem map_rank_assignRanks (n : ℕ) (l : List Row) :
    (assignRanks n l).map Row.rank = List.range' n l.length := by
  induction l generalizing n with
  | nil => rfl
  | cons r rs ih => simp [assignRanks, List.range'_succ, ih]

theorem get_assignRanks (n : ℕ) (l : List Row) (i : ℕ)
    (h : i < (assignRanks n l).length) :
    (assignRanks n l).get ⟨i, h⟩ =
      { l.get ⟨i, (length_assignRanks n l) ▸ h⟩ with rank := n + i } := by
  induction l generalizing n i with
  | nil => simp [assignRanks] at h
  | cons r rs ih =>
    cases i with
    | zero => simp [assignRanks]
    | succ j =>
      have hj : j < (assignRanks (n + 1) rs).length := by
        simpa [assignRanks, Nat.succ_lt_succ_iff] using h
      have := ih (n + 1) j hj
      simp only [assignRanks, List.get_cons_succ]
      rw [this]
      simp [Nat.add_assoc, Nat.add_comm 1 j]

/-! ## Support lemmas: structure of `compute_totals` -/

theorem mem_compute_totals {r : Row} {current starting : Snapshot} {gala_price : ℚ}
    {owners : List String} (h : r ∈ compute_totals current starting gala_price owners) :
    ∃ o ∈ owners, ∃ m, r = { mkRow current starting gala_price o with rank := m } := by
  unfold compute_totals at h
  obtain ⟨r₀, hr₀, m, hm⟩ := mem_assignRanks h
  have hmem : r₀ ∈ owners.map (mkRow current starting gala_price) :=
    (List.perm_insertionSort rowKeyLE _).mem_iff.mp hr₀
  obtain ⟨o, ho, he⟩ := List.mem_map.mp hmem
  exact ⟨o, ho, m, by rw [hm, he]⟩

theorem sorted_compute_totals (current starting : Snapshot) (gala_price : ℚ)
    (owners : List String) :
    List.Pairwise (fun a b : Row => b.current_total ≤ a.current_total)
      (compute_totals current starting gala_price owners) := by
  unfold compute_totals
  have hs : List.Pairwise rowKeyLE
      (List.insertionSort rowKeyLE (owners.map (mkRow current starting gala_price))) :=
    List.sorted_insertionSort rowKeyLE _
  have h1 : ((List.insertionSort rowKeyLE
      (owners.map (mkRow current starting gala_price))).map
        Row.current_total).Pairwise (fun x y : ℚ => y ≤ x) := by
    rw [List.pairwise_map]
    exact hs
  have h2 : ((assignRanks 1 (List.insertionSort rowKeyLE
      (owners.map (mkRow current starting gala_price)))).map
        Row.current_total).Pairwise (fun x y : ℚ => y ≤ x) := by
    rw [map_assignRanks Row.current_total (fun _ _ => rfl)]
    exact h1
  exact List.pairwise_map.mp h2

theorem map_owner_compute_totals (current starting : Snapshot) (gala_price : ℚ)
    (owners : List String) :
    ((compute_totals current starting gala_price owners).map Row.owner).Perm owners := by
  unfold compute_totals
  rw [map_assignRanks Row.owner (fun _ _ => rfl)]
  have e : (owners.map (mkRow current starting gala_price)).map Row.owner = owners := by
    rw [List.map_map]
    have h : (Row.owner ∘ mkRow current starting gala_price) = id := funext fun _ => rfl
    rw [h, List.map_id]
  have hp := (List.perm_insertionSort rowKeyLE
    (owners.map (mkRow current starting gala_price))).map Row.owner
  rw [e] at hp
  exact hp

theorem length_compute_totals (current starting : Snapshot) (gala_price : ℚ)
    (owners : List String) :
    (compute_totals current starting gala_price owners).length = owners.length := by
  unfold compute_totals
  rw [length_assignRanks,
    (List.perm_insertionSort rowKeyLE (owners.map (mkRow current starting gala_price))).length_eq,
    List.length_map]

theorem map_rank_compute_totals (current starting : Snapshot) (gala_price : ℚ)
    (owners : List String) :
    (compute_totals current starting gala_price owners).map Row.rank =
      List.range' 1 (compute_totals current starting gala_price owners).length := by
  unfold compute_totals
  rw [map_rank_assignRanks, length_assignRanks]

theorem rank_get_compute_totals (current starting : Snapshot) (gala_price : ℚ)
    (owners : List String) (i : ℕ)
    (hi : i < (compute_totals current starting gala_price owners).length) :
    ((compute_totals current starting gala_price owners).get ⟨i, hi⟩).rank = 1 + i := by
  unfold compute_totals at hi ⊢
  rw [get_assignRanks]

/-! ## Claim theorems -/

/-- **C1**: for every pair of snapshots, price and owner-set iteration order,
a non-empty leaderboard has ranks exactly `1..N` (no duplicates, no gaps) and
`current_total` is non-increasing as rank increases (the row list, which
carries the ranks `1..N` in order, is pairwise non-increasing on
`current_total`). -/
theorem leaderboard_rank_invariant (current starting : Snapshot) (gala_price : ℚ)
    (owners : List String)
    (_hne : compute_totals current starting gala_price owners ≠ []) :
    (compute_totals current starting gala_price owners).map Row.rank =
      List.range' 1 (compute_totals current starting gala_price owners).length ∧
    List.Pairwise (fun a b : Row => b.current_total ≤ a.current_total)
      (compute_totals current starting gala_price owners) :=
  ⟨map_rank_compute_totals current starting gala_price owners,
   sorted_compute_totals current starting gala_price owners⟩

/-- Witness for `leaderboard_rank_invariant` at a concrete input (owner `B`
is absent from both snapshots and lands at rank 2 with total 0). -/
theorem leaderboard_rank_invariant_witness :
    (compute_totals [("A", ⟨10, 5, 0⟩)] [("A", ⟨5, 5, 0⟩)] 2 ["A", "B"] ≠ []) ∧
    ((compute_totals [("A", ⟨10, 5, 0⟩)] [("A", ⟨5, 5, 0⟩)] 2 ["A", "B"]).map Row.rank =
      List.range' 1
        (compute_totals [("A", ⟨10, 5, 0⟩)] [("A", ⟨5, 5, 0⟩)] 2 ["A", "B"]).length ∧
    List.Pairwise (fun a b : Row => b.current_total ≤ a.current_total)
      (compute_totals [("A", ⟨10, 5, 0⟩)] [("A", ⟨5, 5, 0⟩)] 2 ["A", "B"])) :=
  ⟨by with_unfolding_all decide,
   leaderboard_rank_invariant [("A", ⟨10, 5, 0⟩)] [("A", ⟨5, 5, 0⟩)] 2 ["A", "B"]
     (by with_unfolding_all decide)⟩

/-- **C2**: in every row `compute_totals` produces, `pct_change` is present
iff `starting_total > 0`, and when present it equals
`(current_total - starting_total) / starting_total * 100`. -/
theorem pct_change_present_iff (current starting : Snapshot) (gala_price : ℚ)
    (owners : List String) (r : Row)
    (hr : r ∈ compute_totals current starting gala_price owners) :
    (r.pct_change ≠ none ↔ 0 < r.starting_total) ∧
    (∀ q, r.pct_change = some q →
      q = (r.current_total - r.starting_total) / r.starting_total * 100) := by
  obtain ⟨o, _, m, rfl⟩ := mem_compute_totals hr
  constructor
  · by_cases h : total gala_price (bget starting o) > 0 <;> simp [mkRow, h]
  · intro q hq
    by_cases h : total gala_price (bget starting o) > 0
    · simp only [mkRow, h, if_true] at hq ⊢
      simp at hq
      rw [← hq]
    · simp [mkRow, h] at hq

/-- Witness for `pct_change_present_iff` at a concrete input. -/
theorem pct_change_present_iff_witness :
    (({ owner := "A", gala := 1, gusdc := 2, gusdt := 3, starting_total := 3,
        current_total := 6, change := 3, pct_change := some 100, rank := 1 } : Row) ∈
      compute_totals [("A", ⟨1, 2, 3⟩)] [("A", ⟨1, 1, 1⟩)] 1 ["A"]) ∧
    (((some 100 : Option ℚ) ≠ none ↔ (0 : ℚ) < 3) ∧
      (∀ q : ℚ, (some 100 : Option ℚ) = some q → q = ((6 : ℚ) - 3) / 3 * 100)) :=
  ⟨by with_unfolding_all decide,
   pct_change_present_iff [("A", ⟨1, 2, 3⟩)] [("A", ⟨1, 1, 1⟩)] 1 ["A"]
     { owner := "A", gala := 1, gusdc := 2, gusdt := 3, starting_total := 3,
       current_total := 6, change := 3, pct_change := some 100, rank := 1 }
     (by with_unfolding_all decide)⟩

/-- **C4**: every row's totals follow
`total(balances) = native * price + stableA + stableB` applied to the row's
owner in each snapshot, `change = current_total - starting_total`; and the
spec's concrete scenario evaluates as stated, with
`pct_change = 200/3 ≈ 66.67`. -/
theorem totals_formula (current starting : Snapshot) (gala_price : ℚ)
    (owners : List String) :
    (∀ r ∈ compute_totals current starting gala_price owners,
      r.current_total = total gala_price (bget current r.owner) ∧
      r.starting_total = total gala_price (bget starting r.owner) ∧
      r.change = r.current_total - r.starting_total) ∧
    compute_totals [("A", ⟨10, 5, 0⟩)] [("A", ⟨5, 5, 0⟩)] 2 ["A"] =
      [{ owner := "A", gala := 10, gusdc := 5, gusdt := 0, starting_total := 15,
         current_total := 25, change := 10, pct_change := some (200 / 3), rank := 1 }] ∧
    |(200 : ℚ) / 3 - 6667 / 100| < 1 / 100 := by
  refine ⟨?_, by with_unfolding_all decide, by rw [abs_lt]; constructor <;> norm_num⟩
  intro r hr
  obtain ⟨o, _, m, rfl⟩ := mem_compute_totals hr
  exact ⟨rfl, rfl, rfl⟩

/-- Witness for `totals_formula` at a concrete input (discharging the
row-membership hypothesis of its first conjunct). -/
theorem totals_formula_witness :
    (({ owner := "A", gala := 10, gusdc := 5, gusdt := 0, starting_total := 15,
        current_total := 25, change := 10, pct_change := some (200 / 3),
        rank := 1 } : Row) ∈
      compute_totals [("A", ⟨10, 5, 0⟩)] [("A", ⟨5, 5, 0⟩)] 2 ["A"]) ∧
    ((25 : ℚ) = total 2 (bget [("A", ⟨10, 5, 0⟩)] "A") ∧
     (15 : ℚ) = total 2 (bget [("A", ⟨5, 5, 0⟩)] "A") ∧
     (10 : ℚ) = (25 : ℚ) - 15) :=
  ⟨by with_unfolding_all decide,
   (totals_formula [("A", ⟨10, 5, 0⟩)] [("A", ⟨5, 5, 0⟩)] 2 ["A"]).1
     { owner := "A", gala := 10, gusdc := 5, gusdt := 0, starting_total := 15,
       current_total := 25, change := 10, pct_change := some (200 / 3), rank := 1 }
     (by with_unfolding_all decide)⟩

/-- **C3**: for any duplicate-free enumeration `owners` of the key union of
the two snapshots, the leaderboard has exactly one row per account of that
union (its owner column is duplicate-free, and an owner appears iff it is a
key of either snapshot), and an account missing from one snapshot gets that
side's total computed as from all-zero balances. -/
theorem account_universe (current starting : Snapshot) (gala_price : ℚ)
    (owners : List String) (hnd : owners.Nodup)
    (hmem : ∀ o, o ∈ owners ↔ (o ∈ keys current ∨ o ∈ keys starting)) :
    ((compute_totals current starting gala_price owners).map Row.owner).Nodup ∧
    (∀ o, o ∈ (compute_totals current starting gala_price owners).map Row.owner ↔
      (o ∈ keys current ∨ o ∈ keys starting)) ∧
    (∀ r ∈ compute_totals current starting gala_price owners,
      (lookup current r.owner = none →
        r.gala = 0 ∧ r.gusdc = 0 ∧ r.gusdt = 0 ∧
        r.current_total = total gala_price ⟨0, 0, 0⟩) ∧
      (lookup starting r.owner = none →
        r.starting_total = total gala_price ⟨0, 0, 0⟩)) := by
  have hperm := map_owner_compute_totals current starting gala_price owners
  refine ⟨hperm.nodup_iff.mpr hnd, fun o => (hperm.mem_iff).trans (hmem o), ?_⟩
  intro r hr
  obtain ⟨o, _, m, rfl⟩ := mem_compute_totals hr
  have hown :
      ({ mkRow current starting gala_price o with rank := m } : Row).owner = o := rfl
  rw [hown]
  constructor
  · intro hnone
    have hb : bget current o = ⟨0, 0, 0⟩ := by rw [bget, hnone]; rfl
    refine ⟨?_, ?_, ?_, ?_⟩
    · show (bget current o).gala = 0
      rw [hb]
    · show (bget current o).gusdc = 0
      rw [hb]
    · show (bget current o).gusdt = 0
      rw [hb]
    · show total gala_price (bget current o) = total gala_price ⟨0, 0, 0⟩
      rw [hb]
  · intro hnone
    have hb : bget starting o = ⟨0, 0, 0⟩ := by rw [bget, hnone]; rfl
    show total gala_price (bget starting o) = total gala_price ⟨0, 0, 0⟩
    rw [hb]

/-- Witness for `account_universe` at a concrete input: `"A"` only in the
current snapshot, `"B"` only in the starting one. -/
theorem account_universe_witness :
    (["A", "B"] : List String).Nodup ∧
    (∀ o, o ∈ (["A", "B"] : List String) ↔
      (o ∈ keys [("A", (⟨1, 2, 3⟩ : Balances))] ∨
        o ∈ keys [("B", (⟨4, 5, 6⟩ : Balances))])) ∧
    (((compute_totals [("A", ⟨1, 2, 3⟩)] [("B", ⟨4, 5, 6⟩)] 1 ["A", "B"]).map
        Row.owner).Nodup ∧
     (∀ o, o ∈ (compute_totals [("A", ⟨1, 2, 3⟩)] [("B", ⟨4, 5, 6⟩)] 1
          ["A", "B"]).map Row.owner ↔
        (o ∈ keys [("A", (⟨1, 2, 3⟩ : Balances))] ∨
          o ∈ keys [("B", (⟨4, 5, 6⟩ : Balances))])) ∧
     (∀ r ∈ compute_totals [("A", ⟨1, 2, 3⟩)] [("B", ⟨4, 5, 6⟩)] 1 ["A", "B"],
        (lookup [("A", ⟨1, 2, 3⟩)] r.owner = none →
          r.gala = 0 ∧ r.gusdc = 0 ∧ r.gusdt = 0 ∧
          r.current_total = total 1 ⟨0, 0, 0⟩) ∧
        (lookup [("B", ⟨4, 5, 6⟩)] r.owner = none →
          r.starting_total = total 1 ⟨0, 0, 0⟩))) :=
  ⟨by decide,
   by intro o; simp [keys],
   account_universe [("A", ⟨1, 2, 3⟩)] [("B", ⟨4, 5, 6⟩)] 1 ["A", "B"]
     (by decide) (by intro o; simp [keys])⟩

/-- **C5**: `parse_float` is total (it is a plain function into `ℚ`; the
Python `try`/`except` is the `none` branch of `pyFloat?`), returns exactly
`0.0` on `None` and on each of the listed sentinel strings — and, generally,
whenever the stripped input is empty or its lower-casing is a sentinel — and
returns `0.0` whenever numeric conversion of the stripped input fails. -/
theorem parse_float_spec :
    parse_float none = 0 ∧
    parse_float (some "") = 0 ∧
    parse_float (some " ") = 0 ∧
    parse_float (some "na") = 0 ∧
    parse_float (some "NaN") = 0 ∧
    parse_float (some "None") = 0 ∧
    parse_float (some "NULL") = 0 ∧
    (∀ s : String, (pyStrip s = "" ∨ pyLower (pyStrip s) ∈ SPECIAL_ZERO) →
      parse_float (some s) = 0) ∧
    (∀ s : String, pyFloat? (pyStrip s) = none → parse_float (some s) = 0) := by
  refine ⟨rfl, by with_unfolding_all decide, by with_unfolding_all decide,
    by with_unfolding_all decide, by with_unfolding_all decide,
    by with_unfolding_all decide, by with_unfolding_all decide, ?_, ?_⟩
  · intro s h
    simp only [parse_float]
    rw [if_pos h]
  · intro s h
    by_cases hc : pyStrip s = "" ∨ pyLower (pyStrip s) ∈ SPECIAL_ZERO
    · simp only [parse_float]
      rw [if_pos hc]
    · simp only [parse_float]
      rw [if_neg hc, h]

/-- Witness for `parse_float_spec`: a failing conversion (`"12x34"`) and a
sentinel reached case-insensitively after stripping (`" NA "`). -/
theorem parse_float_spec_witness :
    pyFloat? (pyStrip "12x34") = none ∧ parse_float (some "12x34") = 0 ∧
    (pyStrip " NA " = "" ∨ pyLower (pyStrip " NA ") ∈ SPECIAL_ZERO) ∧
    parse_float (some " NA ") = 0 :=
  ⟨by with_unfolding_all decide,
   parse_float_spec.2.2.2.2.2.2.2.2 "12x34" (by with_unfolding_all decide),
   by with_unfolding_all decide,
   parse_float_spec.2.2.2.2.2.2.2.1 " NA " (by with_unfolding_all decide)⟩

/-! ## Support lemmas: the CSV reader fold -/

theorem lookup_csv_foldl (o : String) (ho : o ≠ "") (rs : List CsvRow) :
    ∀ acc : Snapshot,
      lookup (rs.foldl csvStep acc) o =
        oor (rs.filterMap (fun r =>
            if pyStrip (r.owner.getD "") = o then some (rowBalances r)
            else none)).getLast?
          (lookup acc o) := by
  induction rs with
  | nil => intro acc; simp [oor]
  | cons r rs ih =>
    intro acc
    rw [List.foldl_cons, ih (csvStep acc r)]
    by_cases hsel : pyStrip (r.owner.getD "") = o
    · have hne : pyStrip (r.owner.getD "") ≠ "" := by rw [hsel]; exact ho
      have hstep : csvStep acc r = dinsert acc o (rowBalances r) := by
        simp only [csvStep]
        rw [if_neg hne, hsel]
      have hfm : ((r :: rs).filterMap (fun r =>
          if pyStrip (r.owner.getD "") = o then some (rowBalances r) else none)) =
          rowBalances r :: (rs.filterMap (fun r =>
            if pyStrip (r.owner.getD "") = o then some (rowBalances r) else none)) := by
        simp [List.filterMap_cons, hsel]
      rw [hstep, lookup_dinsert, if_pos rfl, hfm, getLast?_cons_oor, oor_oor_some]
    · have hfm : ((r :: rs).filterMap (fun r =>
          if pyStrip (r.owner.getD "") = o then some (rowBalances r) else none)) =
          (rs.filterMap (fun r =>
            if pyStrip (r.owner.getD "") = o then some (rowBalances r) else none)) := by
        simp [List.filterMap_cons, hsel]
      have hstep : lookup (csvStep acc r) o = lookup acc o := by
        simp only [csvStep]
        by_cases hz : pyStrip (r.owner.getD "") = ""
        · rw [if_pos hz]
        · rw [if_neg hz, lookup_dinsert, if_neg (fun h => hsel h.symm)]
      rw [hstep, hfm]

theorem lookup_csv_foldl_empty (rs : List CsvRow) :
    ∀ acc : Snapshot, lookup acc "" = none →
      lookup (rs.foldl csvStep acc) "" = none := by
  induction rs with
  | nil => intro acc h; exact h
  | cons r rs ih =>
    intro acc h
    rw [List.foldl_cons]
    apply ih
    simp only [csvStep]
    by_cases hz : pyStrip (r.owner.getD "") = ""
    · rw [if_pos hz]; exact h
    · rw [if_neg hz, lookup_dinsert, if_neg (fun hh => hz hh.symm)]; exact h

/-- **C6**: a missing file yields the empty mapping; for an existing file,
an account's stored balances are those of the *last* record whose trimmed
owner equals that account (each asset field parsed through `parse_float`),
records with an empty trimmed owner are skipped entirely, and no empty-owner
entry is ever created. -/
theorem read_balances_spec :
    read_balances_from_csv none = [] ∧
    (∀ (rs : List CsvRow) (o : String), o ≠ "" →
      lookup (read_balances_from_csv (some rs)) o =
        (rs.filterMap (fun r =>
          if pyStrip (r.owner.getD "") = o then some (rowBalances r)
          else none)).getLast?) ∧
    (∀ rs : List CsvRow, lookup (read_balances_from_csv (some rs)) "" = none) := by
  refine ⟨rfl, ?_, ?_⟩
  · intro rs o ho
    show lookup (rs.foldl csvStep []) o = _
    rw [lookup_csv_foldl o ho rs []]
    have h0 : lookup ([] : Snapshot) o = none := rfl
    rw [h0, oor_none_right]
  · intro rs
    exact lookup_csv_foldl_empty rs [] rfl

/-- Witness for `read_balances_spec`: duplicate owner `"alice"` (after
trimming) where the last record wins, a skipped blank-owner record, and an
unparseable asset field degrading to `0`. -/
theorem read_balances_spec_witness :
    ("alice" : String) ≠ "" ∧
    lookup (read_balances_from_csv (some
        [⟨some " alice ", some "1", some "2", none⟩,
         ⟨some "  ", some "9", none, none⟩,
         ⟨some "alice", some "3", none, some "x"⟩])) "alice" =
      ([⟨some " alice ", some "1", some "2", none⟩,
        ⟨some "  ", some "9", none, none⟩,
        ⟨some "alice", some "3", none, some "x"⟩].filterMap (fun r =>
          if pyStrip (r.owner.getD "") = "alice" then some (rowBalances r)
          else none)).getLast? :=
  ⟨by decide,
   read_balances_spec.2.1
     [⟨some " alice ", some "1", some "2", none⟩,
      ⟨some "  ", some "9", none, none⟩,
      ⟨some "alice", some "3", none, some "x"⟩] "alice" (by decide)⟩

/-- **C7 (amended)**: a call that finds a cached pair younger than the TTL
returns the cached price with no fetch; and whenever a first call leaves a
cached pair and a second call happens within the TTL of that pair's
timestamp, the second call performs no fetch and returns the identical
price — so the two calls perform at most one fetch between them. (The
unconditional claim fails when the first call's fetch fails with no prior
cache: see `price_cache_idempotence_counterexample`.) -/
theorem price_cache_single_fetch :
    (∀ (p t now : ℚ) (f : FetchOutcome), now - t < PRICE_CACHE_TTL_SEC →
      get_gala_usd_price (some (p, t)) now f = ⟨p, some (p, t), false⟩) ∧
    (∀ (cache : Option (ℚ × ℚ)) (t₁ t₂ p t : ℚ) (f₁ f₂ : FetchOutcome),
      (get_gala_usd_price cache t₁ f₁).cache = some (p, t) →
      t₂ - t < PRICE_CACHE_TTL_SEC →
      get_gala_usd_price ((get_gala_usd_price cache t₁ f₁).cache) t₂ f₂ =
        ⟨(get_gala_usd_price cache t₁ f₁).price,
         (get_gala_usd_price cache t₁ f₁).cache, false⟩) := by
  constructor
  · intro p t now f h
    simp [get_gala_usd_price, h]
  · intro cache t₁ t₂ p t f₁ f₂ hc hfresh
    have hp : (get_gala_usd_price cache t₁ f₁).price = p := by
      rcases cache with _ | ⟨q, u⟩
      · cases f₁ with
        | failure => simp [get_gala_usd_price] at hc
        | success usd =>
          simp [get_gala_usd_price] at hc ⊢
          exact hc.1
      · by_cases hf : t₁ - u < PRICE_CACHE_TTL_SEC
        · simp [get_gala_usd_price, hf] at hc ⊢
          exact hc.1
        · cases f₁ with
          | failure =>
            simp [get_gala_usd_price, hf] at hc ⊢
            exact hc.1
          | success usd =>
            simp [get_gala_usd_price, hf] at hc ⊢
            exact hc.1
    rw [hc, hp]
    simp [get_gala_usd_price, hfresh]

/-- Witness for `price_cache_single_fetch`: first call fetches `2`
successfully at time `0`, second call at time `30` (within the TTL) returns
the same price with no fetch. -/
theorem price_cache_single_fetch_witness :
    ((get_gala_usd_price none 0 (.success (some "2"))).cache = some (2, 0)) ∧
    ((30 : ℚ) - 0 < PRICE_CACHE_TTL_SEC) ∧
    get_gala_usd_price ((get_gala_usd_price none 0 (.success (some "2"))).cache)
        30 .failure =
      ⟨(get_gala_usd_price none 0 (.success (some "2"))).price,
       (get_gala_usd_price none 0 (.success (some "2"))).cache, false⟩ :=
  ⟨by with_unfolding_all decide,
   by with_unfolding_all decide,
   price_cache_single_fetch.2 none 0 30 2 0 (.success (some "2")) .failure
     (by with_unfolding_all decide) (by with_unfolding_all decide)⟩

/-- **C7 counterexample**: with an empty cache, a first call at time `0`
whose fetch fails and a second call at time `1` (one second later — inside
one TTL window) whose fetch succeeds with price `2` both perform an external
fetch, and the two calls return different prices (`0` then `2`), refuting
"at most one external fetch and identical prices". -/
theorem price_cache_idempotence_counterexample :
    (get_gala_usd_price none 0 .failure).fetched = true ∧
    (get_gala_usd_price (get_gala_usd_price none 0 .failure).cache 1
        (.success (some "2"))).fetched = true ∧
    (get_gala_usd_price (get_gala_usd_price none 0 .failure).cache 1
        (.success (some "2"))).price ≠
      (get_gala_usd_price none 0 .failure).price ∧
    (1 : ℚ) - 0 < PRICE_CACHE_TTL_SEC := by
  with_unfolding_all decide

/-- **C8**: when the external fetch fails (for any reason — the `failure`
outcome covers every raised exception), the accessor returns the cached
pair's price if one exists and `0.0` otherwise, and leaves the cache slot
(price and timestamp) exactly as it was; it never raises (it is a plain
total function). -/
theorem price_fetch_failure_fallback (cache : Option (ℚ × ℚ)) (now : ℚ) :
    (get_gala_usd_price cache now .failure).price = (cache.map Prod.fst).getD 0 ∧
    (get_gala_usd_price cache now .failure).cache = cache := by
  rcases cache with _ | ⟨p, t⟩
  · exact ⟨rfl, rfl⟩
  · by_cases h : now - t < PRICE_CACHE_TTL_SEC <;> simp [get_gala_usd_price, h]

/-- **C9 (amended)**: rows at distinct positions always carry distinct
ranks (so tied accounts never share a rank), and when exactly two rows tie
on `current_total` their ranks are adjacent; but the row order is *not*
determined by the snapshots and the price alone — it follows the iteration
order of the owner set (see `tie_order_not_input_determined`). -/
theorem tie_ranks_distinct_adjacent (current starting : Snapshot) (gala_price : ℚ)
    (owners : List String) (i j : ℕ) (a b : Row)
    (ha : (compute_totals current starting gala_price owners)[i]? = some a)
    (hb : (compute_totals current starting gala_price owners)[j]? = some b)
    (hij : i ≠ j) :
    a.rank ≠ b.rank ∧
    (a.current_total = b.current_total →
      (∀ (k : ℕ) (c : Row),
        (compute_totals current starting gala_price owners)[k]? = some c →
        k ≠ i → k ≠ j → c.current_total ≠ a.current_total) →
      (a.rank = b.rank + 1 ∨ b.rank = a.rank + 1)) := by
  obtain ⟨hi, hai⟩ := List.getElem?_eq_some_iff.mp ha
  obtain ⟨hj, hbj⟩ := List.getElem?_eq_some_iff.mp hb
  have hga : (compute_totals current starting gala_price owners).get ⟨i, hi⟩ = a := by
    rw [List.get_eq_getElem]
    exact hai
  have hgb : (compute_totals current starting gala_price owners).get ⟨j, hj⟩ = b := by
    rw [List.get_eq_getElem]
    exact hbj
  have hra : a.rank = 1 + i := by
    rw [← hga, rank_get_compute_totals]
  have hrb : b.rank = 1 + j := by
    rw [← hgb, rank_get_compute_totals]
  have hct : ∀ (p q : ℕ) (hp : p < (compute_totals current starting gala_price
      owners).length) (hq : q < (compute_totals current starting gala_price
      owners).length), p < q →
      ((compute_totals current starting gala_price owners).get ⟨q, hq⟩).current_total ≤
        ((compute_totals current starting gala_price owners).get ⟨p, hp⟩).current_total := by
    intro p q hp hq hpq
    exact List.pairwise_iff_get.mp
      (sorted_compute_totals current starting gala_price owners) ⟨p, hp⟩ ⟨q, hq⟩ hpq
  refine ⟨by omega, ?_⟩
  intro heq huniq
  rcases hij.lt_or_lt with hlt | hlt
  · -- i < j : show j = i + 1, i.e. the ranks are adjacent
    have hj1 : j = i + 1 := by
      by_contra hne
      have h2 : i + 1 < j := by omega
      have hk : i + 1 < (compute_totals current starting gala_price owners).length := by
        omega
      apply huniq (i + 1)
        ((compute_totals current starting gala_price owners).get ⟨i + 1, hk⟩)
        (by rw [List.get_eq_getElem]; exact List.getElem?_eq_getElem hk)
        (by omega) (by omega)
      have h3 := hct i (i + 1) hi hk (by omega)
      have h4 := hct (i + 1) j hk hj h2
      rw [hga] at h3
      rw [hgb] at h4
      rw [← heq] at h4
      exact le_antisymm h3 h4
    exact Or.inr (by omega)
  · -- j < i : symmetric
    have hi1 : i = j + 1 := by
      by_contra hne
      have h2 : j + 1 < i := by omega
      have hk : j + 1 < (compute_totals current starting gala_price owners).length := by
        omega
      apply huniq (j + 1)
        ((compute_totals current starting gala_price owners).get ⟨j + 1, hk⟩)
        (by rw [List.get_eq_getElem]; exact List.getElem?_eq_getElem hk)
        (by omega) (by omega)
      have h3 := hct j (j + 1) hj hk (by omega)
      have h4 := hct (j + 1) i hk hi h2
      rw [hgb] at h3
      rw [hga] at h4
      rw [← heq] at h3
      exact le_antisymm h3 h4
    exact Or.inl (by omega)

/-- Witness for `tie_ranks_distinct_adjacent`: two accounts tie on
`current_total = 2` and receive the distinct adjacent ranks 1 and 2. -/
theorem tie_ranks_distinct_adjacent_witness :
    ((compute_totals [("a", ⟨0, 2, 0⟩), ("b", ⟨0, 2, 0⟩)] [] 0 ["a", "b"])[0]? =
      some { owner := "a", gala := 0, gusdc := 2, gusdt := 0, starting_total := 0,
             current_total := 2, change := 2, pct_change := none, rank := 1 }) ∧
    ((compute_totals [("a", ⟨0, 2, 0⟩), ("b", ⟨0, 2, 0⟩)] [] 0 ["a", "b"])[1]? =
      some { owner := "b", gala := 0, gusdc := 2, gusdt := 0, starting_total := 0,
             current_total := 2, change := 2, pct_change := none, rank := 2 }) ∧
    ((1 : ℕ) ≠ 2 ∧
      ((2 : ℚ) = 2 →
        (∀ (k : ℕ) (c : Row),
          (compute_totals [("a", ⟨0, 2, 0⟩), ("b", ⟨0, 2, 0⟩)] [] 0
            ["a", "b"])[k]? = some c →
          k ≠ 0 → k ≠ 1 → c.current_total ≠ 2) →
        ((1 : ℕ) = 2 + 1 ∨ (2 : ℕ) = 1 + 1))) :=
  ⟨by with_unfolding_all decide,
   by with_unfolding_all decide,
   tie_ranks_distinct_adjacent [("a", ⟨0, 2, 0⟩), ("b", ⟨0, 2, 0⟩)] [] 0
     ["a", "b"] 0 1
     { owner := "a", gala := 0, gusdc := 2, gusdt := 0, starting_total := 0,
       current_total := 2, change := 2, pct_change := none, rank := 1 }
     { owner := "b", gala := 0, gusdc := 2, gusdt := 0, starting_total := 0,
       current_total := 2, change := 2, pct_change := none, rank := 2 }
     (by with_unfolding_all decide) (by with_unfolding_all decide) (by decide)⟩

/-- **C9 counterexample**: on the same pair of snapshots and the same price,
two valid iteration orders of the owner set (both duplicate-free
enumerations of the key union) produce the rows in different orders when two
accounts tie on `current_total` — the output is not determined by the
snapshots and price, so "two runs produce the identical order" fails. -/
theorem tie_order_not_input_determined :
    List.Perm ["a", "b"]
      (keys [("a", (⟨0, 1, 0⟩ : Balances)), ("b", ⟨0, 1, 0⟩)] ++
        keys ([] : Snapshot)) ∧
    List.Perm ["b", "a"]
      (keys [("a", (⟨0, 1, 0⟩ : Balances)), ("b", ⟨0, 1, 0⟩)] ++
        keys ([] : Snapshot)) ∧
    (["a", "b"] : List String).Nodup ∧
    (["b", "a"] : List String).Nodup ∧
    compute_totals [("a", ⟨0, 1, 0⟩), ("b", ⟨0, 1, 0⟩)] [] 0 ["a", "b"] ≠
      compute_totals [("a", ⟨0, 1, 0⟩), ("b", ⟨0, 1, 0⟩)] [] 0 ["b", "a"] := by
  with_unfolding_all decide

end Cicadabot
